import Mathlib

/-!
# Verification of the duplicate-analysis engine of `disk-arranger`

A shallow embedding of `analyze.py` (the duplicate-analysis core of the
disk-arranger repository) together with proofs and refutations of the
specification's claims about it.

Modelling conventions:
* Python text (`str`) is `List Char`, abbreviated `PyStr`; display strings
  produced for reports use Lean `String`.
* Python `int` is `Int` (sizes), `Nat` where the source guarantees naturals.
* Python dictionaries (which preserve insertion order) are association lists;
  inserting a fresh key appends, updating an existing key keeps its position.
* Python's stable `sorted` is `List.insertionSort` (stable for a total
  preorder); `sorted(key=k, reverse=True)` is `insertionSort` with the
  relation `fun a b => k b ≤ k a`, which reverses comparisons while keeping
  stability, exactly as Python documents `reverse=True`.
* Python `//` on `int` is floor division, i.e. `Int.fdiv`.
* Console output is modelled as a list of `Diag` values: the claims only care
  that a diagnostic of a given kind is (or is not) emitted.
-/

abbrev PyStr := List Char

/-! ## Python `str.replace` -/

/-- Does `s` start with `pat`? -/
def pyStartsWith : PyStr → PyStr → Bool
  | _, [] => true
  | [], _ :: _ => false
  | c :: t, p :: ps => c = p && pyStartsWith t ps

/-- Fuelled worker for `pyReplace`; the fuel only serves to make the
definition structurally recursive (each step consumes at least one character,
so `fuel = s.length` is always enough). -/
def pyReplaceF (pat rep : PyStr) : Nat → PyStr → PyStr
  | 0, s => s
  | _, [] => []
  | fuel + 1, c :: t =>
    if pat ≠ [] ∧ pyStartsWith (c :: t) pat then
      rep ++ pyReplaceF pat rep fuel (t.drop (pat.length - 1))
    else c :: pyReplaceF pat rep fuel t

/-- Python `s.replace(pat, rep)` for a nonempty pattern `pat`: scan left to
right, replacing non-overlapping occurrences.  (Python's behaviour for an
empty pattern is different, but the source only replaces nonempty patterns.) -/
def pyReplace (pat rep s : PyStr) : PyStr := pyReplaceF pat rep s.length s

theorem pyReplaceF_fuel (pat rep : PyStr) :
    ∀ (f : Nat) (s : PyStr), s.length ≤ f →
      pyReplaceF pat rep f s = pyReplaceF pat rep s.length s := by
  intro f
  induction f using Nat.strong_induction_on with
  | _ f ih =>
    intro s hs
    match f, s with
    | f, [] => cases f <;> rfl
    | 0, c :: t => simp at hs
    | f + 1, c :: t =>
      have ht : t.length ≤ f := by simpa using hs
      simp only [pyReplaceF, List.length_cons]
      by_cases h : pat ≠ [] ∧ pyStartsWith (c :: t) pat
      · rw [if_pos h, if_pos h]
        have hd : (t.drop (pat.length - 1)).length ≤ t.length := by
          simp only [List.length_drop]; omega
        rw [ih f (Nat.lt_succ_self f) _ (le_trans hd ht),
          ih t.length (Nat.lt_succ_of_le ht) _ hd]
      · rw [if_neg h, if_neg h]
        rw [ih f (Nat.lt_succ_self f) _ ht, ih t.length (Nat.lt_succ_of_le ht) _ le_rfl]

/-- Step lemma for a single-character pattern: exactly one character is
consumed per step. -/
theorem pyReplace_cons_single (a : Char) (rep : PyStr) (c : Char) (t : PyStr) :
    pyReplace [a] rep (c :: t) = (if c = a then rep else [c]) ++ pyReplace [a] rep t := by
  by_cases h : c = a
  · subst h
    simp [pyReplace, pyReplaceF, pyStartsWith]
  · simp [pyReplace, pyReplaceF, pyStartsWith, h]

theorem pyReplace_nil (pat rep : PyStr) : pyReplace pat rep [] = [] := by
  cases pat <;> rfl

/-! ## `escape` and `unescape` (analyze.py) -/

/-- `escape` from analyze.py: `t.replace("^", "^^").replace(" ", "^s")`. -/
def escape (t : PyStr) : PyStr :=
  pyReplace [' '] ['^', 's'] (pyReplace ['^'] ['^', '^'] t)

/-- Number of leading carets of a string. -/
def caretRun : PyStr → Nat
  | '^' :: t => caretRun t + 1
  | _ => 0

/-- Modelled from the source: the regex substitution
`re.sub(r"(?<!\^)((\^\^)*)\^s", r"\1 ", t)` of `unescape`.

A match of the pattern starts where the preceding character is not a caret,
i.e. at the beginning of a maximal caret run.  At a maximal run of `k` carets
the group `((\^\^)*)\^s` must consume the whole run (any shorter attempt puts
`\^s` against a caret), so a match exists exactly when `k` is odd and the run
is followed by a literal `s`; the replacement keeps the `k - 1` paired carets
and turns the final `^s` into a space.  Scanning resumes after the consumed
`s`, so the next maximal run again starts after a non-caret.  `csAux run s`
scans `s` with `run` carets of the current maximal run already read. -/
def csAux (run : Nat) : PyStr → PyStr
  | [] => List.replicate run '^'
  | c :: t =>
    if c = '^' then csAux (run + 1) t
    else if c = 's' ∧ run % 2 = 1 then
      List.replicate (run - 1) '^' ++ ' ' :: csAux 0 t
    else List.replicate run '^' ++ c :: csAux 0 t

/-- The caret-aware space-unescaping regex substitution of `unescape`. -/
def caretSub (s : PyStr) : PyStr := csAux 0 s

/-- `unescape` from analyze.py: the regex substitution, then
`.replace("^^", "^")`, the result wrapped in quotation marks. -/
def unescape (t : PyStr) : PyStr :=
  '"' :: (pyReplace ['^', '^'] ['^'] (caretSub t) ++ ['"'])

/-! ## Path splitting (analyze.py `split_path`, `get_path_parent`) -/

def isSep (c : Char) : Bool := c = '/' || c = '\\'

/-- Index of the last occurrence of `c` in `s` (only used when `c` occurs). -/
def lastIdxOf (c : Char) (s : PyStr) : Nat :=
  match s.reverse.findIdx? (· = c) with
  | some j => s.length - 1 - j
  | none => s.length

/-- `split_path` from analyze.py: strip one trailing separator, find the
first separator character (`/` or `\`), and rsplit once on that character,
returning `(parent path including separator, name, separator)`. -/
def split_path (path : PyStr) : PyStr × PyStr × PyStr :=
  let path1 :=
    match path.getLast? with
    | some c => if isSep c then path.dropLast else path
    | none => path
  match path1.find? isSep with
  | none => ([], path1, [])
  | some sep =>
    let i := lastIdxOf sep path1
    (path1.take (i + 1), path1.drop (i + 1), [sep])

/-- `get_path_parent` from analyze.py. -/
def get_path_parent (path : PyStr) : PyStr := (split_path path).1

/-! ## `commonsuffixpath` (analyze.py) -/

/-- `re.sub(r"[/\\]", "/", w)`: normalise separators. -/
def normSep (c : Char) : Char := if isSep c then '/' else c

/-- Longest common prefix of two strings. -/
def lcp2 : PyStr → PyStr → PyStr
  | a :: as, b :: bs => if a = b then a :: lcp2 as bs else []
  | _, _ => []

/-- `os.path.commonprefix`: the longest common prefix of all the words
(empty for an empty list); folding pairwise gives the same string. -/
def commonPrefixAll : List PyStr → PyStr
  | [] => []
  | w :: ws => ws.foldl lcp2 w

/-- Part of `s` before its last `/` — Python `s.rsplit("/", 1)[0]` — or all
of `s` when `/` does not occur. -/
def afterFirst (c : Char) : PyStr → Option PyStr
  | [] => none
  | a :: t => if a = c then some t else afterFirst c t

def beforeLastSlash (s : PyStr) : PyStr :=
  match afterFirst '/' s.reverse with
  | some post => post.reverse
  | none => s

/-- `commonsuffixpath` from analyze.py: length of the common trailing path
structure of `words`, truncated to a path-segment boundary. -/
def commonsuffixpath (words : List PyStr) : Nat :=
  (beforeLastSlash (commonPrefixAll (words.map (fun w => (w.map normSep).reverse)))).length

/-! ## `human_size` (analyze.py) -/

/-- Round `a / b` (with `b > 0`) to the nearest integer, ties to even. -/
def rdivEven (a b : Nat) : Nat :=
  let q := a / b
  let r := a % b
  if 2 * r < b then q else if b < 2 * r then q + 1 else if q % 2 = 0 then q else q + 1

def stripZeros (s : List Char) : List Char := (s.reverse.dropWhile (· = '0')).reverse

/-- Modelled from the source: Python float formatting `f"{n/d:.4g}"`, i.e.
the quotient rendered with 4 significant decimal digits, modelled on the
exact rational `n / d` with `n, d ≥ 1` (the source divides two positive
machine floats; for the concrete values appearing in the claims the float
quotient is exact, so the models agree there). -/
def fmt4g (n d : Nat) : String :=
  let fl := n / d
  let e0 := (Nat.toDigits 10 fl).length - 1
  let m0 := if e0 ≤ 3 then rdivEven (n * 10 ^ (3 - e0)) d else rdivEven n (d * 10 ^ (e0 - 3))
  let m := if m0 = 10000 then 1000 else m0
  let e := if m0 = 10000 then e0 + 1 else e0
  let ds := Nat.toDigits 10 m
  if e < 4 then
    let ip := ds.take (e + 1)
    let fp := stripZeros (ds.drop (e + 1))
    String.mk (ip ++ (if fp = [] then [] else '.' :: fp))
  else
    let fp := stripZeros (ds.drop 1)
    String.mk (ds.take 1 ++ (if fp = [] then [] else '.' :: fp)) ++ "e+" ++
      (if e < 10 then "0" ++ toString e else toString e)

def size_names : List String := ["B", "KiB", "MiB", "GiB", "TiB", "PiB", "EiB", "ZiB", "YiB"]

/-- The `size_map` generator of `human_size`: `(1 << (10 * i), name)`. -/
def size_map : List (Nat × String) :=
  (List.range 9).map (fun i => (2 ^ (10 * i), size_names.getD i ""))

/-- The loop of `human_size`: starting from `r`, for each `(value, unit)`
break when `size < value`, otherwise overwrite `r` with the formatted value. -/
def human_aux (size : Nat) : String → List (Nat × String) → String
  | r, [] => r
  | r, (v, u) :: rest => if size < v then r else human_aux size (fmt4g size v ++ " " ++ u) rest

/-- `human_size` from analyze.py. -/
def human_size (size : Nat) : String :=
  human_aux size (toString size ++ " B") size_map

/-- The unit index `human_size` ends up displaying: the loop keeps the last
`i < 9` with `2 ^ (10 * i) ≤ size` (and `0` when `size = 0`). -/
def humanIndex (size : Nat) : Nat :=
  (List.range 9).foldl (fun r i => if size < 2 ^ (10 * i) then r else i) 0

/-! ## Data model (analyze.py `FileInfo`, `SameFileHolder`, `FileDump`) -/

/-- `FileInfo` from analyze.py: the timestamps associated with a path. -/
structure FileInfo where
  atime : PyStr
  mtime : PyStr
  ctime : Option PyStr
deriving DecidableEq

/-- `SameFileHolder` from analyze.py: the paths of the files with one SHA.
The `paths` dict is an insertion-ordered association list. -/
structure SameFileHolder where
  size : Int
  paths : List (PyStr × FileInfo)
deriving DecidableEq

/-- `SameFileHolder.wasting_space` from analyze.py:
`(size + cluster_size - 1) // cluster_size * cluster_size * (len(paths) - 1)`,
with Python's floor division `//`. -/
def SameFileHolder.wasting_space (sfh : SameFileHolder) (cluster_size : Int) : Int :=
  (sfh.size + cluster_size - 1).fdiv cluster_size * cluster_size *
    ((sfh.paths.length : Int) - 1)

/-- `elementwise_tuple_sum` from analyze.py:
`tuple(map(lambda *e: sum(e), *l)) if l else None`.  `map` over several
iterables stops at the shortest one, which for a nonempty list of rows is a
left fold of truncating elementwise addition over the remaining rows. -/
def elementwise_tuple_sum : List (List Int) → Option (List Int)
  | [] => none
  | w :: ws => some (ws.foldl (fun acc r => List.zipWith (· + ·) acc r) w)

/-- The diagnostics the engine prints; only their occurrence matters here. -/
inductive Diag where
  | failedRecord (path : PyStr) (size : Int) (info : FileInfo)
  | sizesDiffer (sha : PyStr) (newSize stored : Int)
  | ignoring (line : PyStr)
deriving DecidableEq

/-- Lookup in an insertion-ordered association list (Python `d[k]` / `k in d`). -/
def alookup {β : Type} (m : List (PyStr × β)) (k : PyStr) : Option β :=
  (m.find? (fun e => e.1 = k)).map (·.2)

/-- Overwrite the value of an existing key, keeping its position. -/
def aupdate {β : Type} (m : List (PyStr × β)) (k : PyStr) (v : β) : List (PyStr × β) :=
  m.map (fun e => if e.1 = k then (k, v) else e)

/-- Python `d[k] = v`: update in place when the key exists, append otherwise. -/
def aset {β : Type} (m : List (PyStr × β)) (k : PyStr) (v : β) : List (PyStr × β) :=
  if (alookup m k).isSome then aupdate m k v else m ++ [(k, v)]

/-- `FileDump` from analyze.py (the `completer_cache` used only by the
interactive navigator is out of the claims' scope and omitted). -/
structure FileDump where
  db : List (PyStr × SameFileHolder)
  graph : List (PyStr × List (PyStr × PyStr))
  dups : List (PyStr × SameFileHolder)
  dup_paths : List (List PyStr × Nat)
deriving DecidableEq

/-- A fresh `FileDump()`. -/
def FileDump.init : FileDump := ⟨[], [], [], []⟩

/-- `FileDump.add_path` from analyze.py.  Returns the new state and the
diagnostics printed.  A record with the sentinel hash `"failed"` is logged
and changes nothing; otherwise the `(child, sha)` entry is registered under
the parent directory in `graph`, and the record is added to `db`: a fresh
hash gets a new holder with the parsed size, an existing hash gets the path
added to its holder, the stored size left as it was, and a "sizes differ"
diagnostic when the stored and parsed sizes disagree. -/
def add_path (fd : FileDump) (path : PyStr) (sha : PyStr) (size : Int)
    (timeinfo : FileInfo) : FileDump × List Diag :=
  let psc := split_path path
  let parent := psc.1
  let child := psc.2.1
  let sep := psc.2.2
  if sha = "failed".toList then (fd, [Diag.failedRecord path size timeinfo])
  else
    let graph1 :=
      if (alookup fd.graph parent).isSome then fd.graph else fd.graph ++ [(parent, [])]
    let entry := (child ++ (if sha ≠ [] then [] else sep), sha)
    let graph2 := aupdate graph1 parent ((alookup graph1 parent).getD [] ++ [entry])
    match alookup fd.db sha with
    | none =>
      ({ fd with graph := graph2, db := fd.db ++ [(sha, ⟨size, [(path, timeinfo)]⟩)] }, [])
    | some sfh =>
      let db1 := aupdate fd.db sha ⟨sfh.size, aset sfh.paths path timeinfo⟩
      ({ fd with graph := graph2, db := db1 },
       if sfh.size ≠ size then [Diag.sizesDiffer sha size sfh.size] else [])

/-! ## Record parsing and `load_file` -/

/-- The whitespace stripped by Python `str.rstrip()` (ASCII part; the input
format never holds other Unicode whitespace). -/
def isPySpace (c : Char) : Bool :=
  c = ' ' || c = '\t' || c = '\n' || c = '\r' || c = '\x0b' || c = '\x0c'

def pyRstrip (s : PyStr) : PyStr := (s.reverse.dropWhile isPySpace).reverse

/-- Python `s.split("\t")`. -/
def splitTab : PyStr → List PyStr
  | [] => [[]]
  | c :: t =>
    match splitTab t with
    | [] => [[]]
    | f :: r => if c = '\t' then [] :: f :: r else (c :: f) :: r

def digitVal (c : Char) : Option Nat :=
  if '0' ≤ c ∧ c ≤ '9' then some (c.toNat - '0'.toNat) else none

def digitsVal (s : PyStr) : Option Nat :=
  if s = [] then none
  else s.foldl (fun acc c => acc.bind (fun n => (digitVal c).map (fun d => n * 10 + d)))
    (some 0)

/-- Modelled from the source: Python `int(ssize)` — an optional sign followed
by decimal digits, `none` on anything else (Python additionally strips
surrounding whitespace and allows underscore digit separators; no claim
exercises those). -/
def parseInt (s : PyStr) : Option Int :=
  match s with
  | '-' :: t => (digitsVal t).map (fun n => -(n : Int))
  | '+' :: t => (digitsVal t).map (fun n => (n : Int))
  | t => (digitsVal t).map (fun n => (n : Int))

/-- One iteration of the `load_file` loop:
`path, sha, ssize, atime, mtime, *lctime = line.rstrip().split("\t")` needs
at least 5 fields (extra fields flow into `lctime`, whose head becomes
`ctime`), `size = int(ssize)` must parse, and the path is escaped.  `none`
models the `ValueError` cases. -/
def parse_line (line : PyStr) : Option (PyStr × PyStr × Int × FileInfo) :=
  match splitTab (pyRstrip line) with
  | path :: sha :: ssize :: atime :: mtime :: lctime =>
    match parseInt ssize with
    | none => none
    | some size => some (escape path, sha, size, ⟨atime, mtime, lctime.head?⟩)
  | _ => none

/-- The parsing loop of `FileDump.load_file`.  In the source the
`try/except ValueError` wraps the WHOLE `for` loop, so the first malformed
line prints `Ignoring ...` and ends the loop: the remaining lines are never
parsed. -/
def load_lines (fd : FileDump) : List PyStr → FileDump × List Diag
  | [] => (fd, [])
  | line :: rest =>
    match parse_line line with
    | none => (fd, [Diag.ignoring line])
    | some (path, sha, size, ti) =>
      let r1 := add_path fd path sha size ti
      let r2 := load_lines r1.1 rest
      (r2.1, r1.2 ++ r2.2)

/-- The root bookkeeping after the loop of `load_file`: it reads
`self.graph[""]`, which raises an uncaught `KeyError` (modelled as `none`)
when the root key is absent; otherwise it removes a `(".", "")` child and
registers `"./"` and `".\"` root markers when those keys exist. -/
def load_fixup (fd : FileDump) : Option FileDump :=
  match alookup fd.graph [] with
  | none => none
  | some l0 =>
    let l1 := if (['.'], ([] : PyStr)) ∈ l0 then l0.erase (['.'], ([] : PyStr)) else l0
    let g1 := aupdate fd.graph [] l1
    let g2 :=
      if (alookup g1 "./".toList).isSome then
        aupdate g1 [] ((alookup g1 []).getD [] ++ [("./".toList, ([] : PyStr))])
      else g1
    let g3 :=
      if (alookup g2 ".\\".toList).isSome then
        aupdate g2 [] ((alookup g2 []).getD [] ++ [(".\\".toList, ([] : PyStr))])
      else g2
    some { fd with graph := g3 }

/-- `FileDump.load_file` from analyze.py, on the already-read lines of the
file: the parsing loop, then the root bookkeeping. -/
def load_file (fd : FileDump) (lines : List PyStr) : Option FileDump × List Diag :=
  let r := load_lines fd lines
  (load_fixup r.1, r.2)

/-! ## `get_sorted_dups`, `get_wasted_space`, `get_dup_paths` -/

/-- The sort key of `get_sorted_dups`: `wasting_space()` with its default
`cluster_size=1`. -/
def dupKey (e : PyStr × SameFileHolder) : Int := e.2.wasting_space 1

/-- The ordering realised by Python's stable
`sorted(key=wasting_space, reverse=True)`. -/
def dupRel (a b : PyStr × SameFileHolder) : Prop := dupKey b ≤ dupKey a

instance : DecidableRel dupRel := fun a b => inferInstanceAs (Decidable (dupKey b ≤ dupKey a))

instance : IsTotal (PyStr × SameFileHolder) dupRel :=
  ⟨fun a b => (le_total (dupKey b) (dupKey a)).imp id id⟩

instance : IsTrans (PyStr × SameFileHolder) dupRel :=
  ⟨fun _ _ _ h1 h2 => le_trans h2 h1⟩

/-- `FileDump.get_sorted_dups` from analyze.py: when forced or when the
cache `self.dups` is empty, filter the content groups with at least two
paths and sort them by `wasting_space()` descending (stable); otherwise
return the cache. -/
def get_sorted_dups (fd : FileDump) (force : Bool) : FileDump × List (PyStr × SameFileHolder) :=
  if force || fd.dups.isEmpty then
    let d := List.insertionSort dupRel
      (fd.db.filter (fun e => decide (2 ≤ e.2.paths.length)))
    ({ fd with dups := d }, d)
  else (fd, fd.dups)

/-- `FileDump.get_wasted_space` from analyze.py: ensure `dups` is initiated,
build one row of `wasting_space` values per duplicate group, and sum the
rows elementwise; `return r if r else (0, 0)` yields the pair `(0, 0)`
whenever the elementwise sum is `None` (no duplicate groups) or the empty
tuple (no requested cluster sizes). -/
def get_wasted_space (fd : FileDump) (cluster_sizes : List Int) : FileDump × List Int :=
  let fd1 := (get_sorted_dups fd false).1
  let rows := fd1.dups.map (fun e => cluster_sizes.map (fun c => e.2.wasting_space c))
  match elementwise_tuple_sum rows with
  | some r => (fd1, if r = [] then [0, 0] else r)
  | none => (fd1, [0, 0])

/-- `find_not_common_dir_tuple` from analyze.py (inside `get_dup_paths`):
take the parent directory of every path, strip the common path suffix
unless it is trivial or stripping would leave the first directory with at
most one separator, and return the sorted tuple. -/
def find_not_common_dir_tuple (paths : List PyStr) : List PyStr :=
  let paths1 := paths.map get_path_parent
  let opaths := paths1
  let suffix := commonsuffixpath paths1
  let paths2 := paths1.map
    (fun p => if suffix = 0 ∨ suffix = p.length then p else p.take (p.length - suffix))
  let paths3 := if (paths2.headD []).countP isSep ≤ 1 then opaths else paths2
  List.insertionSort (· ≤ ·) paths3

/-- The keys of `collections.Counter(l)` in their first-appearance order. -/
def counterKeys {α : Type} [BEq α] (l : List α) : List α :=
  l.foldl (fun acc a => if acc.contains a then acc else acc ++ [a]) []

/-- `collections.Counter(l).items()`. -/
def counterItems {α : Type} [BEq α] (l : List α) : List (α × Nat) :=
  (counterKeys l).map (fun a => (a, l.count a))

/-- The ordering of Python `sorted` on `(tuple of strings, count)` pairs:
lexicographic on the tuple, then on the count. -/
def sigRel (a b : List PyStr × Nat) : Prop :=
  a.1 < b.1 ∨ (a.1 = b.1 ∧ a.2 ≤ b.2)

instance : DecidableRel sigRel := fun a b =>
  inferInstanceAs (Decidable (a.1 < b.1 ∨ (a.1 = b.1 ∧ a.2 ≤ b.2)))

instance : IsTotal (List PyStr × Nat) sigRel := by
  constructor
  intro a b
  rcases lt_trichotomy a.1 b.1 with h | h | h
  · exact Or.inl (Or.inl h)
  · rcases le_total a.2 b.2 with h2 | h2
    · exact Or.inl (Or.inr ⟨h, h2⟩)
    · exact Or.inr (Or.inr ⟨h.symm, h2⟩)
  · exact Or.inr (Or.inl h)

instance : IsTrans (List PyStr × Nat) sigRel := by
  constructor
  intro a b c h1 h2
  rcases h1 with h1 | ⟨e1, l1⟩
  · rcases h2 with h2 | ⟨e2, l2⟩
    · exact Or.inl (lt_trans h1 h2)
    · exact Or.inl (e2 ▸ h1)
  · rcases h2 with h2 | ⟨e2, l2⟩
    · exact Or.inl (e1 ▸ h2)
    · exact Or.inr ⟨e1.trans e2, le_trans l1 l2⟩

/-- `FileDump.get_dup_paths` from analyze.py: when forced or when the cache
`self.dup_paths` is empty, take the directory signature of every group in
`self.dups` (NOT of `get_sorted_dups()` — the cached list is read as it is),
count the signatures, keep those occurring more than once and sort the
`(signature, count)` pairs with plain `sorted`; otherwise return the cache. -/
def get_dup_paths (fd : FileDump) (force : Bool) : FileDump × List (List PyStr × Nat) :=
  if force || fd.dup_paths.isEmpty then
    let dups := fd.dups.map (fun e => e.2.paths.map (·.1))
    let parent_paths := dups.map find_not_common_dir_tuple
    let res := List.insertionSort sigRel
      ((counterItems parent_paths).filter (fun e => decide (1 < e.2)))
    ({ fd with dup_paths := res }, res)
  else (fd, fd.dup_paths)

/-! ## Association-list lemmas -/

theorem alookup_aupdate_of_isSome {β : Type} (m : List (PyStr × β)) (k : PyStr) (v : β)
    (h : (alookup m k).isSome) : alookup (aupdate m k v) k = some v := by
  induction m with
  | nil => simp [alookup] at h
  | cons e m ih =>
    by_cases he : e.1 = k
    · simp [alookup, aupdate, he]
    · simp only [alookup, aupdate, List.map_cons, if_neg he] at h ⊢
      rw [List.find?_cons_of_neg _ (by simpa using he)] at h ⊢
      exact ih h

theorem mem_aset_self {β : Type} (m : List (PyStr × β)) (k : PyStr) (v : β) :
    (k, v) ∈ aset m k v := by
  induction m with
  | nil => simp [aset, alookup]
  | cons e m ih =>
    by_cases he : e.1 = k
    · have hf : List.find? (fun x : PyStr × β => decide (x.1 = k)) (e :: m) = some e :=
        List.find?_cons_of_pos _ (by simpa using he)
      have hs : (alookup (e :: m) k).isSome := by
        unfold alookup
        rw [hf]
        rfl
      rw [aset, if_pos hs]
      simp only [aupdate, List.map_cons, if_pos he]
      exact List.mem_cons_self _ _
    · have hl : alookup (e :: m) k = alookup m k := by
        simp only [alookup]
        rw [List.find?_cons_of_neg _ (by simpa using he)]
      simp only [aset] at ih ⊢
      rw [hl]
      by_cases hm : (alookup m k).isSome
      · rw [if_pos hm] at ih ⊢
        simp only [aupdate, List.map_cons]
        exact List.mem_cons_of_mem _ ih
      · rw [if_neg hm]
        simp

/-! ## Concrete data used by the individual claims -/

/-- A throwaway timestamp record. -/
def tinfo : FileInfo := ⟨"T".toList, "T".toList, none⟩

/-- Input stream for claim C1: a directory line, a good record, a record
whose size field does not parse, and another good record after it. -/
def c1_lines : List PyStr :=
  ["./\t\t0\tT\tT".toList, "./a\tAA\t3\tT\tT".toList,
   "./b\tBB\tx3\tT\tT".toList, "./c\tCC\t4\tT\tT".toList]

/-- A dump with one record of hash `hh` and size 3 (claim C2). -/
def c2_fd : FileDump := (add_path FileDump.init "a/x".toList "hh".toList 3 tinfo).1

/-- A dump with one duplicate group of size 6 and two paths (claim C4). -/
def c4_bad : FileDump :=
  (add_path (add_path FileDump.init "a/x".toList "hh".toList 6 tinfo).1
    "b/x".toList "hh".toList 6 tinfo).1

/-- A dump with one duplicate group of size 100 and two paths (claim C4). -/
def c4_good : FileDump :=
  (add_path (add_path FileDump.init "a/x".toList "mm".toList 100 tinfo).1
    "b/x".toList "mm".toList 100 tinfo).1

/-- A dump with two duplicate groups of equal wasted space, the
lexicographically larger hash `bb` inserted before `aa` (claim C5). -/
def c5_fd : FileDump :=
  (add_path (add_path (add_path (add_path FileDump.init
    "x/p".toList "bb".toList 1 tinfo).1
    "y/p".toList "bb".toList 1 tinfo).1
    "x/q".toList "aa".toList 1 tinfo).1
    "y/q".toList "aa".toList 1 tinfo).1

/-- A dump with one duplicate group of size 7 and three paths (claim C6). -/
def c6_fd : FileDump :=
  (add_path (add_path (add_path FileDump.init "a/x".toList "ww".toList 7 tinfo).1
    "b/x".toList "ww".toList 7 tinfo).1 "c/x".toList "ww".toList 7 tinfo).1

/-- Two duplicate groups under directories `a`,`b` and three under `c`,`d`
(claim C3): the signature `(a/, b/)` occurs twice, `(c/, d/)` three times. -/
def c3_loaded : FileDump :=
  (add_path (add_path (add_path (add_path (add_path
   (add_path (add_path (add_path (add_path (add_path FileDump.init
    "a/x".toList "h1".toList 1 tinfo).1 "b/x".toList "h1".toList 1 tinfo).1
    "a/y".toList "h2".toList 1 tinfo).1 "b/y".toList "h2".toList 1 tinfo).1
    "c/x".toList "h3".toList 1 tinfo).1 "d/x".toList "h3".toList 1 tinfo).1
    "c/y".toList "h4".toList 1 tinfo).1 "d/y".toList "h4".toList 1 tinfo).1
    "c/z".toList "h5".toList 1 tinfo).1 "d/z".toList "h5".toList 1 tinfo).1

/-- `c3_loaded` with its duplicate list initiated (claim C3). -/
def c3_fd : FileDump := (get_sorted_dups c3_loaded false).1

/-- Input stream for claim C10: a fresh load holding one duplicate group. -/
def c10_lines : List PyStr :=
  ["./\t\t0\tT\tT".toList, "./a\tZZ\t4\tT\tT".toList, "./b\tZZ\t4\tT\tT".toList]

/-- The dump freshly loaded from `c10_lines` (claim C10). -/
def c10_fd : FileDump := ((load_file FileDump.init c10_lines).1).getD FileDump.init

/-! ## Claim C9 — `"failed"` records change nothing -/

/-- C9: a record whose hash is the sentinel `"failed"` is only logged:
`add_path` leaves the entire state — `db` and `graph` alike — unchanged, so
a failed file never becomes a completion child of its parent directory. -/
theorem add_path_failed (fd : FileDump) (path : PyStr) (size : Int) (ti : FileInfo) :
    add_path fd path ("failed".toList) size ti = (fd, [Diag.failedRecord path size ti]) := by
  simp [add_path]

/-! ## Claim C2 — size mismatch: the stored size is kept -/

/-- C2 (amended): adding a record whose hash exists with a different stored
size logs the "sizes differ" diagnostic and still adds the path to the
group, but the group keeps its previously stored size (first-write-wins) —
the newly parsed size is NOT made canonical. -/
theorem add_path_size_mismatch (fd : FileDump) (path sha : PyStr) (size : Int)
    (ti : FileInfo) (sfh : SameFileHolder)
    (hsha : sha ≠ "failed".toList) (hdb : alookup fd.db sha = some sfh)
    (hne : sfh.size ≠ size) :
    alookup (add_path fd path sha size ti).1.db sha =
      some ⟨sfh.size, aset sfh.paths path ti⟩ ∧
    (path, ti) ∈ aset sfh.paths path ti ∧
    (add_path fd path sha size ti).2 = [Diag.sizesDiffer sha size sfh.size] := by
  have hs : (alookup fd.db sha).isSome := by rw [hdb]; rfl
  refine ⟨?_, mem_aset_self _ _ _, ?_⟩
  · simp only [add_path, if_neg hsha, hdb]
    exact alookup_aupdate_of_isSome _ _ _ hs
  · simp only [add_path, if_neg hsha, hdb, if_pos hne]

/-- Witness for C2: concretely, hash `hh` stored with size 3, a second
record arrives with size 5; the group keeps size 3, holds both paths, and
the diagnostic is emitted. -/
theorem add_path_size_mismatch_witness :
    alookup (add_path c2_fd "b/x".toList "hh".toList 5 tinfo).1.db "hh".toList =
      some ⟨3, aset [("a/x".toList, tinfo)] "b/x".toList tinfo⟩ ∧
    ("b/x".toList, tinfo) ∈ aset [("a/x".toList, tinfo)] "b/x".toList tinfo ∧
    (add_path c2_fd "b/x".toList "hh".toList 5 tinfo).2 =
      [Diag.sizesDiffer "hh".toList 5 3] :=
  add_path_size_mismatch c2_fd "b/x".toList "hh".toList 5 tinfo ⟨3, [("a/x".toList, tinfo)]⟩
    (by decide) (by decide) (by decide)

/-- Counterexample for C2 as stated: the claim says the newly parsed size 5
becomes the canonical stored size, but after the second `add_path` the
stored size is still 3. -/
theorem add_path_size_mismatch_cex :
    (alookup (add_path c2_fd "b/x".toList "hh".toList 5 tinfo).1.db "hh".toList).map
      (·.size) = some 3 ∧ (3 : Int) ≠ 5 := by decide

/-! ## Claim C1 — a malformed line ends the whole load -/

/-- C1 fails on the code: in `c1_lines` the record `AA` (before the
malformed line) is loaded, the diagnostic names only the malformed line,
but the well-formed record `CC` after it is never loaded — the
`try/except ValueError` wraps the whole loop, so parsing does not continue
past the first malformed line. -/
theorem load_file_stops_at_malformed :
    (load_file FileDump.init c1_lines).2 =
      [Diag.ignoring ("./b\tBB\tx3\tT\tT".toList)] ∧
    ((load_file FileDump.init c1_lines).1.map
      (fun fd => ((alookup fd.db "AA".toList).isSome, (alookup fd.db "CC".toList).isSome)))
      = some (true, false) := by decide

/-! ## Claim C10 — a fresh load leaves the duplicate caches empty -/

theorem add_path_cache (fd : FileDump) (path sha : PyStr) (size : Int) (ti : FileInfo) :
    (add_path fd path sha size ti).1.dups = fd.dups ∧
    (add_path fd path sha size ti).1.dup_paths = fd.dup_paths := by
  unfold add_path
  split
  · exact ⟨rfl, rfl⟩
  · dsimp only
    split <;> exact ⟨rfl, rfl⟩

theorem load_lines_cache :
    ∀ (lines : List PyStr) (fd : FileDump),
      (load_lines fd lines).1.dups = fd.dups ∧
      (load_lines fd lines).1.dup_paths = fd.dup_paths := by
  intro lines
  induction lines with
  | nil => intro fd; exact ⟨rfl, rfl⟩
  | cons line rest ih =>
    intro fd
    unfold load_lines
    cases hp : parse_line line with
    | none => exact ⟨rfl, rfl⟩
    | some v =>
      obtain ⟨path, sha, size, ti⟩ := v
      simp only []
      refine ⟨?_, ?_⟩
      · rw [(ih _).1, (add_path_cache fd path sha size ti).1]
      · rw [(ih _).2, (add_path_cache fd path sha size ti).2]

theorem load_fixup_cache (fd fd1 : FileDump) (h : load_fixup fd = some fd1) :
    fd1.dups = fd.dups ∧ fd1.dup_paths = fd.dup_paths := by
  unfold load_fixup at h
  cases hg : alookup fd.graph [] with
  | none => rw [hg] at h; exact absurd h (by simp)
  | some l0 =>
    rw [hg] at h
    simp only [Option.some_inj] at h
    subst h
    split <;> split <;> exact ⟨rfl, rfl⟩

theorem get_dup_paths_of_empty_caches (fd : FileDump)
    (h1 : fd.dups = []) (h2 : fd.dup_paths = []) :
    (get_dup_paths fd false).2 = [] := by
  unfold get_dup_paths
  rw [h2]
  simp [h1, counterItems, counterKeys]

/-- C10: on a freshly loaded dump — `load_file` alone never touches the
`dups` and `dup_paths` caches — `get_dup_paths()` returns the empty
collection even when the loaded index contains duplicate groups, because it
reads the (still empty) `self.dups` cache instead of computing the
duplicate list. -/
theorem get_dup_paths_after_fresh_load (lines : List PyStr) (fd1 : FileDump)
    (h : (load_file FileDump.init lines).1 = some fd1) :
    (get_dup_paths fd1 false).2 = [] := by
  unfold load_file at h
  simp only [] at h
  have hl := load_lines_cache lines FileDump.init
  have hf := load_fixup_cache _ _ h
  exact get_dup_paths_of_empty_caches fd1 (hf.1.trans hl.1) (hf.2.trans hl.2)

/-- Witness for C10: `c10_lines` loads successfully, its index holds a
genuine duplicate group (`ZZ` with two paths), and `get_dup_paths()` on the
fresh dump is nevertheless empty. -/
theorem get_dup_paths_after_fresh_load_witness :
    (load_file FileDump.init c10_lines).1 = some c10_fd ∧
    ((alookup c10_fd.db "ZZ".toList).map (·.paths.length)) = some 2 ∧
    (get_dup_paths c10_fd false).2 = [] :=
  ⟨by decide, by decide,
    get_dup_paths_after_fresh_load c10_lines c10_fd (by decide)⟩

/-! ## Claim C6 — elementwise accumulation of wasted space -/

theorem zipWith_add_map {α : Type} (cs : List α) (h k : α → Int) :
    List.zipWith (· + ·) (cs.map h) (cs.map k) = cs.map (fun c => h c + k c) := by
  induction cs with
  | nil => rfl
  | cons c cs ih => simp [ih]

theorem foldl_zipWith_rows {α β : Type} (rest : List β) (cs : List α)
    (w : β → α → Int) (h : α → Int) :
    (rest.map (fun e => cs.map (w e))).foldl
        (fun acc r => List.zipWith (· + ·) acc r) (cs.map h) =
      cs.map (fun c => h c + (rest.map (fun e => w e c)).sum) := by
  induction rest generalizing h with
  | nil => simp
  | cons e rest ih =>
    simp only [List.map_cons, List.foldl_cons, zipWith_add_map]
    rw [ih (fun c => h c + w e c)]
    simp [add_assoc]

theorem foldl_zipWith_nil {β : Type} (l : List β) :
    (l.map (fun _ => ([] : List Int))).foldl
        (fun acc r => List.zipWith (· + ·) acc r) [] = [] := by
  induction l with
  | nil => rfl
  | cons e l ih => simpa using ih

/-- The elementwise totals of `get_wasted_space` when there is at least one
duplicate group and at least one requested cluster size. -/
theorem get_wasted_space_eq (fd : FileDump) (cs : List Int)
    (hne : (get_sorted_dups fd false).1.dups ≠ []) (hcs : cs ≠ []) :
    (get_wasted_space fd cs).2 =
      cs.map (fun c =>
        ((get_sorted_dups fd false).1.dups.map (fun e => e.2.wasting_space c)).sum) := by
  unfold get_wasted_space
  cases hd : (get_sorted_dups fd false).1.dups with
  | nil => exact absurd hd hne
  | cons e rest =>
    simp only [hd, List.map_cons, elementwise_tuple_sum]
    rw [foldl_zipWith_rows rest cs (fun e c => e.2.wasting_space c)
      (fun c => e.2.wasting_space c)]
    have hr : cs.map (fun c => e.2.wasting_space c +
        (rest.map (fun e => e.2.wasting_space c)).sum) ≠ [] := by
      cases cs with
      | nil => exact absurd rfl hcs
      | cons c cs => simp
    rw [if_neg hr]
    simp [List.sum_cons]

/-- The degenerate `(0, 0)` result of `get_wasted_space`. -/
theorem get_wasted_space_degenerate (fd : FileDump) (cs : List Int)
    (h : (get_sorted_dups fd false).1.dups = [] ∨ cs = []) :
    (get_wasted_space fd cs).2 = [0, 0] := by
  unfold get_wasted_space
  rcases h with h | h
  · simp [h, elementwise_tuple_sum]
  · cases hd : (get_sorted_dups fd false).1.dups with
    | nil => simp [hd, elementwise_tuple_sum]
    | cons e rest =>
      subst h
      simp only [hd, List.map_cons, List.map_nil, elementwise_tuple_sum]
      rw [show (rest.map (fun _ => ([] : List Int))).foldl
          (fun acc r => List.zipWith (· + ·) acc r) [] = [] from foldl_zipWith_nil rest]
      simp

/-- C6 (amended): when the duplicate set and the request are both nonempty,
`get_wasted_space` returns one total per requested cluster size, each the
sum of `wasting_space(c)` over all duplicate groups; but when the duplicate
set (or the request) is empty it returns the FIXED pair `(0, 0)` — two
totals regardless of how many cluster sizes were requested. -/
theorem get_wasted_space_totals (fd : FileDump) (cs : List Int) :
    ((get_sorted_dups fd false).1.dups ≠ [] → cs ≠ [] →
      (get_wasted_space fd cs).2 =
        cs.map (fun c =>
          ((get_sorted_dups fd false).1.dups.map (fun e => e.2.wasting_space c)).sum)) ∧
    (((get_sorted_dups fd false).1.dups = [] ∨ cs = []) →
      (get_wasted_space fd cs).2 = [0, 0]) :=
  ⟨fun hne hcs => get_wasted_space_eq fd cs hne hcs,
   fun h => get_wasted_space_degenerate fd cs h⟩

/-- Witness for C6: a dump with one three-path duplicate group of size 7;
requesting cluster sizes `(1, 4)` yields the two per-size sums `(14, 16)`. -/
theorem get_wasted_space_totals_witness :
    (get_sorted_dups c6_fd false).1.dups ≠ [] ∧
    (get_wasted_space c6_fd [1, 4]).2 =
      [1, 4].map (fun c =>
        ((get_sorted_dups c6_fd false).1.dups.map (fun e => e.2.wasting_space c)).sum) ∧
    (get_wasted_space c6_fd [1, 4]).2 = [14, 16] :=
  ⟨by decide,
   (get_wasted_space_totals c6_fd [1, 4]).1 (by decide) (by decide),
   by decide⟩

/-- Counterexample for C6 as stated: with an empty duplicate set and ONE
requested cluster size the result is the pair `(0, 0)`, not one total. -/
theorem get_wasted_space_totals_cex :
    (get_wasted_space FileDump.init [1]).2 = [0, 0] ∧
    (get_wasted_space FileDump.init [1]).2.length ≠ [(1 : Int)].length := by decide

/-! ## Claim C4 — wasted space and cluster size -/

/-- `(s + c - 1) // c * c` is at least `s` for `c > 0`. -/
theorem le_roundUp (s c : Int) (hc : 0 < c) : s ≤ (s + c - 1).fdiv c * c := by
  rw [Int.fdiv_eq_ediv _ (le_of_lt hc)]
  have hmod := Int.ediv_add_emod (s + c - 1) c
  have hlt : (s + c - 1) % c < c := Int.emod_lt_of_pos _ hc
  nlinarith [hmod, hlt]

/-- `(s + c - 1) // c * c` is the least multiple of `c > 0` at least `s`. -/
theorem roundUp_le_of_dvd (s c m : Int) (hc : 0 < c) (hd : c ∣ m) (hm : s ≤ m) :
    (s + c - 1).fdiv c * c ≤ m := by
  rw [Int.fdiv_eq_ediv _ (le_of_lt hc)]
  obtain ⟨k, rfl⟩ := hd
  have h1 : s + c - 1 ≤ c * k + c - 1 := by linarith
  have h2 : (s + c - 1) / c ≤ (c * k + c - 1) / c := Int.ediv_le_ediv hc h1
  have h3 : (c * k + c - 1) / c = k := by
    have : c * k + c - 1 = (c - 1) + k * c := by ring
    rw [this, Int.add_mul_ediv_right _ _ (ne_of_gt hc),
      Int.ediv_eq_zero_of_lt (by linarith) (by linarith), zero_add]
  have h4 : (s + c - 1) / c ≤ k := le_of_le_of_eq h2 h3
  calc (s + c - 1) / c * c ≤ k * c := mul_le_mul_of_nonneg_right h4 (le_of_lt hc)
    _ = c * k := mul_comm k c

theorem roundUp_mono (s c1 c2 : Int) (h1 : 0 < c1) (h12 : c1 ≤ c2) (hd : c1 ∣ c2) :
    (s + c1 - 1).fdiv c1 * c1 ≤ (s + c2 - 1).fdiv c2 * c2 := by
  have h2 : 0 < c2 := lt_of_lt_of_le h1 h12
  refine roundUp_le_of_dvd s c1 _ h1 ?_ (le_roundUp s c2 h2)
  exact dvd_trans hd (dvd_mul_left c2 _)

theorem wasting_space_mono (sfh : SameFileHolder) (c1 c2 : Int)
    (h1 : 0 < c1) (h12 : c1 ≤ c2) (hd : c1 ∣ c2) (hp : 1 ≤ sfh.paths.length) :
    sfh.wasting_space c1 ≤ sfh.wasting_space c2 := by
  unfold SameFileHolder.wasting_space
  have hn : (0 : Int) ≤ (sfh.paths.length : Int) - 1 := by
    have : (1 : Int) ≤ (sfh.paths.length : Int) := by exact_mod_cast hp
    linarith
  exact mul_le_mul_of_nonneg_right (roundUp_mono sfh.size c1 c2 h1 h12 hd) hn

/-- C4 (amended): for a fixed duplicate set (every group holding at least one
path, as every reachable group does) and cluster sizes `0 < c1 ≤ c2` with
`c1 ∣ c2` — which covers the `(1, 4096)` pair the engine uses — the total
wasted space at `c2` is at least the total at `c1`.  Without the
divisibility hypothesis the claim is false (see the counterexample). -/
theorem get_wasted_space_mono (fd : FileDump) (c1 c2 : Int)
    (h1 : 0 < c1) (h12 : c1 ≤ c2) (hd : c1 ∣ c2)
    (hp : ∀ e ∈ (get_sorted_dups fd false).1.dups, 1 ≤ e.2.paths.length) :
    ∃ t1 t2, (get_wasted_space fd [c1, c2]).2 = [t1, t2] ∧ t1 ≤ t2 := by
  by_cases hne : (get_sorted_dups fd false).1.dups = []
  · refine ⟨0, 0, ?_, le_refl 0⟩
    exact get_wasted_space_degenerate fd [c1, c2] (Or.inl hne)
  · rw [get_wasted_space_eq fd [c1, c2] hne (by simp)]
    refine ⟨_, _, rfl, ?_⟩
    exact List.sum_le_sum (fun e he => wasting_space_mono e.2 c1 c2 h1 h12 hd (hp e he))

/-- Witness for C4: the dump `c4_good` (one group, size 100, two paths) at
the engine's cluster sizes 1 and 4096. -/
theorem get_wasted_space_mono_witness :
    ∃ t1 t2, (get_wasted_space c4_good [1, 4096]).2 = [t1, t2] ∧ t1 ≤ t2 :=
  get_wasted_space_mono c4_good 1 4096 (by decide) (by decide) (by decide) (by decide)

/-- Counterexample for C4 as stated: for the duplicate set of `c4_bad`
(one group of size 6 with two paths) and cluster sizes `5 ≤ 6`, the total at
cluster size 6 is 6, STRICTLY BELOW the total 10 at cluster size 5. -/
theorem get_wasted_space_mono_cex :
    (5 : Int) ≤ 6 ∧
    (get_wasted_space c4_bad [5, 6]).2 = [10, 6] ∧
    ¬ ((10 : Int) ≤ 6) := by decide

/-! ## Claim C5 — order of `get_sorted_dups` -/

/-- Insertion sort is stable: the elements satisfying a predicate that ties
them all under `r` come out in their original order. -/
theorem filter_insertionSort {α : Type} (r : α → α → Prop) [DecidableRel r] (p : α → Bool)
    (hp : ∀ a b, p a = true → p b = true → r a b) :
    ∀ l : List α, (List.insertionSort r l).filter p = l.filter p := by
  intro l
  induction l with
  | nil => rfl
  | cons x l ih =>
    simp only [List.insertionSort]
    rw [List.orderedInsert_eq_take_drop]
    rw [List.filter_append]
    have hsplit : ((List.insertionSort r l).takeWhile (fun b => decide ¬ r x b)).filter p ++
        ((List.insertionSort r l).dropWhile (fun b => decide ¬ r x b)).filter p =
        (List.insertionSort r l).filter p := by
      rw [← List.filter_append, List.takeWhile_append_dropWhile]
    by_cases hx : p x = true
    · have htw : ((List.insertionSort r l).takeWhile (fun b => decide ¬ r x b)).filter p
          = [] := by
        rw [List.filter_eq_nil_iff]
        intro b hb hpb
        have hq := List.mem_takeWhile_imp hb
        simp only [decide_eq_true_eq] at hq
        exact hq (hp x b hx hpb)
      rw [htw, List.nil_append, List.filter_cons, List.filter_cons, if_pos hx, if_pos hx]
      rw [htw, List.nil_append] at hsplit
      rw [hsplit, ih]
    · rw [List.filter_cons, List.filter_cons, if_neg hx, if_neg hx, hsplit, ih]

/-- `wasting_space()` at the default cluster size 1 is `size * (count - 1)`. -/
theorem wasting_space_one (sfh : SameFileHolder) :
    sfh.wasting_space 1 = sfh.size * ((sfh.paths.length : Int) - 1) := by
  unfold SameFileHolder.wasting_space
  simp [Int.fdiv_one]

/-- C5 (amended): on a dump whose `dups` cache is empty (e.g. freshly
loaded), `get_sorted_dups` returns exactly the content groups with at least
two paths, in an order non-increasing in `wasted(1) = size * (count - 1)`;
ties keep the insertion order of the content index (Python's sort is
stable) — they are NOT re-sorted by hash. -/
theorem get_sorted_dups_spec (fd : FileDump) (h : fd.dups = []) :
    List.Sorted (fun a b : PyStr × SameFileHolder =>
      b.2.size * ((b.2.paths.length : Int) - 1) ≤ a.2.size * ((a.2.paths.length : Int) - 1))
      (get_sorted_dups fd false).2 ∧
    (∀ e, e ∈ (get_sorted_dups fd false).2 ↔ e ∈ fd.db ∧ 2 ≤ e.2.paths.length) ∧
    (∀ v : Int, (get_sorted_dups fd false).2.filter (fun e => dupKey e == v) =
      fd.db.filter (fun e => (dupKey e == v) && decide (2 ≤ e.2.paths.length))) := by
  have hout : (get_sorted_dups fd false).2 =
      List.insertionSort dupRel (fd.db.filter (fun e => decide (2 ≤ e.2.paths.length))) := by
    simp [get_sorted_dups, h]
  refine ⟨?_, ?_, ?_⟩
  · rw [hout]
    have hs := List.sorted_insertionSort dupRel
      (fd.db.filter (fun e => decide (2 ≤ e.2.paths.length)))
    exact hs.imp (fun hr => by
      simpa only [dupRel, dupKey, wasting_space_one] using hr)
  · intro e
    rw [hout, List.mem_insertionSort, List.mem_filter]
    simp
  · intro v
    rw [hout, filter_insertionSort dupRel _
      (fun a b ha hb => by
        have ha' : dupKey a = v := by simpa using ha
        have hb' : dupKey b = v := by simpa using hb
        exact le_of_eq (hb'.trans ha'.symm)),
      List.filter_filter]

/-- Witness for C5: the amended theorem applied to the concrete dump
`c5_fd`. -/
theorem get_sorted_dups_spec_witness :
    List.Sorted (fun a b : PyStr × SameFileHolder =>
      b.2.size * ((b.2.paths.length : Int) - 1) ≤ a.2.size * ((a.2.paths.length : Int) - 1))
      (get_sorted_dups c5_fd false).2 ∧
    (get_sorted_dups c5_fd false).2.filter (fun e => dupKey e == 1) =
      c5_fd.db.filter (fun e => (dupKey e == 1) && decide (2 ≤ e.2.paths.length)) :=
  ⟨(get_sorted_dups_spec c5_fd (by decide)).1,
   (get_sorted_dups_spec c5_fd (by decide)).2.2 1⟩

/-- Counterexample for C5 as stated: in `c5_fd` the groups `bb` and `aa` tie
on `wasted(1) = 1`, and the output keeps insertion order `bb, aa` even
though `aa < bb` — the tie is NOT broken ascending by hash. -/
theorem get_sorted_dups_tiebreak_cex :
    ((get_sorted_dups c5_fd false).2.map (·.1)) = ["bb".toList, "aa".toList] ∧
    ((get_sorted_dups c5_fd false).2.map dupKey) = [1, 1] ∧
    "aa".toList < "bb".toList := by decide

/-! ## Claim C3 — the directory-cluster result -/

theorem mem_counterKeys_aux {α : Type} [BEq α] [LawfulBEq α] :
    ∀ (l : List α) (acc : List α) (x : α),
      x ∈ l.foldl (fun acc a => if acc.contains a then acc else acc ++ [a]) acc ↔
        x ∈ acc ∨ x ∈ l := by
  intro l
  induction l with
  | nil => simp
  | cons a t ih =>
    intro acc x
    simp only [List.foldl_cons]
    rw [ih]
    by_cases ha' : acc.contains a
    · have ha : a ∈ acc := List.elem_iff.mp ha'
      rw [if_pos ha']
      constructor
      · rintro (h | h)
        · exact Or.inl h
        · exact Or.inr (List.mem_cons_of_mem _ h)
      · rintro (h | h)
        · exact Or.inl h
        · rcases List.mem_cons.mp h with rfl | h
          · exact Or.inl ha
          · exact Or.inr h
    · rw [if_neg ha']
      simp [List.mem_append, List.mem_cons, or_assoc]

theorem mem_counterKeys {α : Type} [BEq α] [LawfulBEq α] (l : List α) (x : α) :
    x ∈ counterKeys l ↔ x ∈ l := by
  have h := mem_counterKeys_aux l [] x
  simp only [List.not_mem_nil, false_or] at h
  exact h

theorem mem_counterItems {α : Type} [BEq α] [LawfulBEq α] (l : List α) (s : α) (c : Nat) :
    (s, c) ∈ counterItems l ↔ s ∈ l ∧ c = l.count s := by
  constructor
  · intro h
    obtain ⟨a, ha, he⟩ := List.mem_map.mp h
    obtain ⟨rfl, rfl⟩ := Prod.mk.injEq .. ▸ he
    exact ⟨(mem_counterKeys l a).mp ha, rfl⟩
  · rintro ⟨hs, rfl⟩
    exact List.mem_map.mpr ⟨s, (mem_counterKeys l s).mpr hs, rfl⟩

/-- The directory signature of each cached duplicate group, in cache order:
what `get_dup_paths` counts. -/
def dupSignatures (fd : FileDump) : List (List PyStr) :=
  (fd.dups.map (fun e => e.2.paths.map (·.1))).map find_not_common_dir_tuple

/-- C3 (amended): on a dump whose `dup_paths` cache is empty, the
directory-cluster result retains exactly the signatures whose occurrence
count across all cached duplicate groups is greater than one, but lists them
in ASCENDING lexicographic order of the `(signature tuple, count)` pairs
(Python's plain `sorted`), not descending by occurrence count. -/
theorem get_dup_paths_spec (fd : FileDump) (h : fd.dup_paths = []) :
    List.Sorted sigRel (get_dup_paths fd false).2 ∧
    ∀ s c, ((s, c) ∈ (get_dup_paths fd false).2 ↔
      ((dupSignatures fd).count s = c ∧ 1 < c)) := by
  have hout : (get_dup_paths fd false).2 = List.insertionSort sigRel
      ((counterItems (dupSignatures fd)).filter (fun e => decide (1 < e.2))) := by
    simp [get_dup_paths, h, dupSignatures]
  refine ⟨?_, ?_⟩
  · rw [hout]
    exact List.sorted_insertionSort sigRel _
  · intro s c
    rw [hout, List.mem_insertionSort, List.mem_filter, mem_counterItems]
    constructor
    · rintro ⟨⟨hs, rfl⟩, hc⟩
      exact ⟨rfl, by simpa using hc⟩
    · rintro ⟨rfl, hc⟩
      have hss : s ∈ dupSignatures fd := List.count_pos_iff.mp (by omega)
      exact ⟨⟨hss, rfl⟩, by simpa using hc⟩

/-- Witness for C3: the amended theorem applied to `c3_fd`, whose groups
yield signature `(a/, b/)` twice and `(c/, d/)` three times. -/
theorem get_dup_paths_spec_witness :
    List.Sorted sigRel (get_dup_paths c3_fd false).2 ∧
    ((["a/".toList, "b/".toList], 2) ∈ (get_dup_paths c3_fd false).2 ↔
      ((dupSignatures c3_fd).count ["a/".toList, "b/".toList] = 2 ∧ 1 < 2)) :=
  ⟨(get_dup_paths_spec c3_fd (by decide)).1,
   (get_dup_paths_spec c3_fd (by decide)).2 ["a/".toList, "b/".toList] 2⟩

/-- Counterexample for C3 as stated: in `c3_fd` both signatures are
retained (counts 2 and 3) but they come out in ascending signature order
with counts `[2, 3]` — not sorted descending by occurrence count. -/
theorem get_dup_paths_order_cex :
    ((get_dup_paths c3_fd false).2.map (fun e => e.2)) = [2, 3] ∧
    ¬ List.Sorted (fun a b : Nat => b ≤ a)
        ((get_dup_paths c3_fd false).2.map (fun e => e.2)) := by decide

/-! ## Claim C7 — escape/unescape round trip -/

theorem escape_cons (c : Char) (t : PyStr) :
    escape (c :: t) =
      (if c = '^' then ['^', '^'] else if c = ' ' then ['^', 's'] else [c]) ++ escape t := by
  by_cases h1 : c = '^'
  · subst h1
    show pyReplace [' '] ['^', 's'] (pyReplace ['^'] ['^', '^'] ('^' :: t)) = _
    rw [pyReplace_cons_single]
    simp only [if_pos rfl]
    show pyReplace [' '] ['^', 's'] ('^' :: '^' :: pyReplace ['^'] ['^', '^'] t) = _
    rw [pyReplace_cons_single, pyReplace_cons_single]
    simp [escape]
  · by_cases h2 : c = ' '
    · subst h2
      show pyReplace [' '] ['^', 's'] (pyReplace ['^'] ['^', '^'] (' ' :: t)) = _
      rw [pyReplace_cons_single]
      simp only [if_neg h1]
      show pyReplace [' '] ['^', 's'] (' ' :: pyReplace ['^'] ['^', '^'] t) = _
      rw [pyReplace_cons_single]
      simp [escape]
    · show pyReplace [' '] ['^', 's'] (pyReplace ['^'] ['^', '^'] (c :: t)) = _
      rw [pyReplace_cons_single]
      simp only [if_neg h1]
      show pyReplace [' '] ['^', 's'] (c :: pyReplace ['^'] ['^', '^'] t) = _
      rw [pyReplace_cons_single]
      simp [escape, h1, h2]

theorem halve_cons2 (t : PyStr) :
    pyReplace ['^', '^'] ['^'] ('^' :: '^' :: t) = '^' :: pyReplace ['^', '^'] ['^'] t := by
  show pyReplaceF ['^', '^'] ['^'] (('^' :: '^' :: t : PyStr).length) ('^' :: '^' :: t) = _
  simp only [List.length_cons, pyReplaceF, pyStartsWith]
  rw [if_pos (by simp [pyStartsWith])]
  show ['^'] ++ pyReplaceF ['^', '^'] ['^'] (t.length + 1) (('^' :: t).drop 1) = _
  rw [List.drop_one, List.tail_cons, pyReplaceF_fuel _ _ (t.length + 1) t (by simp)]
  rfl

theorem halve_cons_ne (c : Char) (t : PyStr) (h : c ≠ '^') :
    pyReplace ['^', '^'] ['^'] (c :: t) = c :: pyReplace ['^', '^'] ['^'] t := by
  show pyReplaceF ['^', '^'] ['^'] ((c :: t : PyStr).length) (c :: t) = _
  simp only [List.length_cons, pyReplaceF]
  rw [if_neg (by simp [pyStartsWith, h])]
  rfl

theorem halve_replicate_append (j : Nat) (s : PyStr) :
    pyReplace ['^', '^'] ['^'] (List.replicate (2 * j) '^' ++ s) =
      List.replicate j '^' ++ pyReplace ['^', '^'] ['^'] s := by
  induction j with
  | zero => simp
  | succ j ih =>
    have h1 : List.replicate (2 * (j + 1)) '^' ++ s =
        '^' :: '^' :: (List.replicate (2 * j) '^' ++ s) := by
      have h2 : 2 * (j + 1) = 2 * j + 1 + 1 := by ring
      simp [h2, List.replicate_succ]
    rw [h1, halve_cons2, ih]
    simp [List.replicate_succ]

theorem csAux_caret (run : Nat) (t : PyStr) : csAux run ('^' :: t) = csAux (run + 1) t := by
  simp [csAux]

theorem csAux_nonCaret (run : Nat) (c : Char) (t : PyStr) (h1 : c ≠ '^')
    (h2 : ¬ (c = 's' ∧ run % 2 = 1)) :
    csAux run (c :: t) = List.replicate run '^' ++ c :: csAux 0 t := by
  simp [csAux, h1, h2]

theorem csAux_escToken (run : Nat) (t : PyStr) (h : run % 2 = 1) :
    csAux run ('s' :: t) = List.replicate (run - 1) '^' ++ ' ' :: csAux 0 t := by
  simp [csAux, h]

theorem unescape_core :
    ∀ (x : PyStr) (j : Nat),
      pyReplace ['^', '^'] ['^'] (csAux (2 * j) (escape x)) = List.replicate j '^' ++ x := by
  intro x
  induction x with
  | nil =>
    intro j
    show pyReplace ['^', '^'] ['^'] (csAux (2 * j) (escape [])) = _
    rw [show escape [] = [] from rfl,
      show csAux (2 * j) ([] : PyStr) = List.replicate (2 * j) '^' from rfl]
    simpa [pyReplace_nil] using halve_replicate_append j []
  | cons c t ih =>
    have ih0 : pyReplace ['^', '^'] ['^'] (csAux 0 (escape t)) = t := by
      simpa using ih 0
    intro j
    rw [escape_cons]
    by_cases h1 : c = '^'
    · subst h1
      rw [if_pos rfl,
        show (['^', '^'] ++ escape t : PyStr) = '^' :: '^' :: escape t from rfl,
        csAux_caret, csAux_caret, show 2 * j + 1 + 1 = 2 * (j + 1) from by ring,
        ih (j + 1)]
      simp [List.replicate_succ']
    · by_cases h2 : c = ' '
      · subst h2
        rw [if_neg h1, if_pos rfl,
          show ((['^', 's'] : PyStr) ++ escape t) = '^' :: 's' :: escape t from rfl,
          csAux_caret, csAux_escToken _ _ (by omega),
          show 2 * j + 1 - 1 = 2 * j from by omega,
          halve_replicate_append j (' ' :: csAux 0 (escape t)),
          halve_cons_ne ' ' _ (by decide), ih0]
      · rw [if_neg h1, if_neg h2,
          show (([c] : PyStr) ++ escape t) = c :: escape t from rfl,
          csAux_nonCaret _ _ _ h1 (by rintro ⟨-, hodd⟩; omega),
          halve_replicate_append j (c :: csAux 0 (escape t)),
          halve_cons_ne c _ h1, ih0]

/-- C7: for every string `x` — arbitrary spaces and carets included —
`unescape (escape x)` is exactly `x` wrapped in a leading and a trailing
quotation mark. -/
theorem unescape_escape (x : PyStr) :
    unescape (escape x) = '"' :: (x ++ ['"']) := by
  unfold unescape caretSub
  have h : pyReplace ['^', '^'] ['^'] (csAux 0 (escape x)) = x := by
    simpa using unescape_core x 0
  rw [h]

/-! ## Claim C8 — `human_size` unit selection and boundary values -/

theorem size_map_eq : size_map =
    [(1, "B"), (1024, "KiB"), (1048576, "MiB"), (1073741824, "GiB"),
     (1099511627776, "TiB"), (1125899906842624, "PiB"),
     (1152921504606846976, "EiB"), (1180591620717411303424, "ZiB"),
     (1208925819614629174706176, "YiB")] := by
  rfl

/-- C8 (amended): `human_size 0 = "0 B"`, `human_size 1024 = "1 KiB"`; for
`1 ≤ size < 1024 ^ 9` the displayed unit is the largest one whose scaled
value is strictly below 1024 (`2 ^ (10 * i) ≤ size < 2 ^ (10 * (i + 1))`);
but from `size = 1024 ^ 9` on the unit saturates at `YiB`, whose scaled
value is then 1024 or more — no unit with a scaled value below 1024 exists
there, contrary to the claim (see the counterexample). -/
theorem human_size_spec :
    human_size 0 = "0 B" ∧ human_size 1024 = "1 KiB" ∧
    (∀ size : Nat, 1 ≤ size → size < 2 ^ 90 →
      2 ^ (10 * humanIndex size) ≤ size ∧ size < 2 ^ (10 * (humanIndex size + 1)) ∧
      human_size size =
        fmt4g size (2 ^ (10 * humanIndex size)) ++ " " ++
          size_names.getD (humanIndex size) "") ∧
    (∀ size : Nat, 2 ^ 90 ≤ size →
      humanIndex size = 8 ∧ human_size size = fmt4g size (2 ^ 80) ++ " " ++ "YiB") := by
  have hr : List.range 9 = [0, 1, 2, 3, 4, 5, 6, 7, 8] := rfl
  refine ⟨by decide, by decide, ?_, ?_⟩
  · intro size h1 h90
    have h90' : size < 1237940039285380274899124224 := by norm_num at h90; exact h90
    by_cases b1 : size < 1024
    · -- branch: unit index 0
      have c0 : ¬ size < 1 := by omega
      have c1 : size < 1024 := by omega
      have c2 : size < 1048576 := by omega
      have c3 : size < 1073741824 := by omega
      have c4 : size < 1099511627776 := by omega
      have c5 : size < 1125899906842624 := by omega
      have c6 : size < 1152921504606846976 := by omega
      have c7 : size < 1180591620717411303424 := by omega
      have c8 : size < 1208925819614629174706176 := by omega
      have hidx : humanIndex size = 0 := by
        norm_num [humanIndex, hr, List.foldl_cons, List.foldl_nil, c0, c1, c2, c3, c4, c5, c6, c7, c8]
      refine ⟨?_, ?_, ?_⟩
      · rw [hidx]; norm_num; omega
      · rw [hidx]; norm_num; omega
      · rw [hidx]
        norm_num [human_size, size_map_eq, human_aux, size_names, c0, c1, c2, c3, c4, c5, c6, c7, c8]
    · -- larger sizes
      by_cases b2 : size < 1048576
      · -- branch: unit index 1
        have c0 : ¬ size < 1 := by omega
        have c1 : ¬ size < 1024 := by omega
        have c2 : size < 1048576 := by omega
        have c3 : size < 1073741824 := by omega
        have c4 : size < 1099511627776 := by omega
        have c5 : size < 1125899906842624 := by omega
        have c6 : size < 1152921504606846976 := by omega
        have c7 : size < 1180591620717411303424 := by omega
        have c8 : size < 1208925819614629174706176 := by omega
        have hidx : humanIndex size = 1 := by
          norm_num [humanIndex, hr, List.foldl_cons, List.foldl_nil, c0, c1, c2, c3, c4, c5, c6, c7, c8]
        refine ⟨?_, ?_, ?_⟩
        · rw [hidx]; norm_num; omega
        · rw [hidx]; norm_num; omega
        · rw [hidx]
          norm_num [human_size, size_map_eq, human_aux, size_names, c0, c1, c2, c3, c4, c5, c6, c7, c8]
      · -- larger sizes
        by_cases b3 : size < 1073741824
        · -- branch: unit index 2
          have c0 : ¬ size < 1 := by omega
          have c1 : ¬ size < 1024 := by omega
          have c2 : ¬ size < 1048576 := by omega
          have c3 : size < 1073741824 := by omega
          have c4 : size < 1099511627776 := by omega
          have c5 : size < 1125899906842624 := by omega
          have c6 : size < 1152921504606846976 := by omega
          have c7 : size < 1180591620717411303424 := by omega
          have c8 : size < 1208925819614629174706176 := by omega
          have hidx : humanIndex size = 2 := by
            norm_num [humanIndex, hr, List.foldl_cons, List.foldl_nil, c0, c1, c2, c3, c4, c5, c6, c7, c8]
          refine ⟨?_, ?_, ?_⟩
          · rw [hidx]; norm_num; omega
          · rw [hidx]; norm_num; omega
          · rw [hidx]
            norm_num [human_size, size_map_eq, human_aux, size_names, c0, c1, c2, c3, c4, c5, c6, c7, c8]
        · -- larger sizes
          by_cases b4 : size < 1099511627776
          · -- branch: unit index 3
            have c0 : ¬ size < 1 := by omega
            have c1 : ¬ size < 1024 := by omega
            have c2 : ¬ size < 1048576 := by omega
            have c3 : ¬ size < 1073741824 := by omega
            have c4 : size < 1099511627776 := by omega
            have c5 : size < 1125899906842624 := by omega
            have c6 : size < 1152921504606846976 := by omega
            have c7 : size < 1180591620717411303424 := by omega
            have c8 : size < 1208925819614629174706176 := by omega
            have hidx : humanIndex size = 3 := by
              norm_num [humanIndex, hr, List.foldl_cons, List.foldl_nil, c0, c1, c2, c3, c4, c5, c6, c7, c8]
            refine ⟨?_, ?_, ?_⟩
            · rw [hidx]; norm_num; omega
            · rw [hidx]; norm_num; omega
            · rw [hidx]
              norm_num [human_size, size_map_eq, human_aux, size_names, c0, c1, c2, c3, c4, c5, c6, c7, c8]
          · -- larger sizes
            by_cases b5 : size < 1125899906842624
            · -- branch: unit index 4
              have c0 : ¬ size < 1 := by omega
              have c1 : ¬ size < 1024 := by omega
              have c2 : ¬ size < 1048576 := by omega
              have c3 : ¬ size < 1073741824 := by omega
              have c4 : ¬ size < 1099511627776 := by omega
              have c5 : size < 1125899906842624 := by omega
              have c6 : size < 1152921504606846976 := by omega
              have c7 : size < 1180591620717411303424 := by omega
              have c8 : size < 1208925819614629174706176 := by omega
              have hidx : humanIndex size = 4 := by
                norm_num [humanIndex, hr, List.foldl_cons, List.foldl_nil, c0, c1, c2, c3, c4, c5, c6, c7, c8]
              refine ⟨?_, ?_, ?_⟩
              · rw [hidx]; norm_num; omega
              · rw [hidx]; norm_num; omega
              · rw [hidx]
                norm_num [human_size, size_map_eq, human_aux, size_names, c0, c1, c2, c3, c4, c5, c6, c7, c8]
            · -- larger sizes
              by_cases b6 : size < 1152921504606846976
              · -- branch: unit index 5
                have c0 : ¬ size < 1 := by omega
                have c1 : ¬ size < 1024 := by omega
                have c2 : ¬ size < 1048576 := by omega
                have c3 : ¬ size < 1073741824 := by omega
                have c4 : ¬ size < 1099511627776 := by omega
                have c5 : ¬ size < 1125899906842624 := by omega
                have c6 : size < 1152921504606846976 := by omega
                have c7 : size < 1180591620717411303424 := by omega
                have c8 : size < 1208925819614629174706176 := by omega
                have hidx : humanIndex size = 5 := by
                  norm_num [humanIndex, hr, List.foldl_cons, List.foldl_nil, c0, c1, c2, c3, c4, c5, c6, c7, c8]
                refine ⟨?_, ?_, ?_⟩
                · rw [hidx]; norm_num; omega
                · rw [hidx]; norm_num; omega
                · rw [hidx]
                  norm_num [human_size, size_map_eq, human_aux, size_names, c0, c1, c2, c3, c4, c5, c6, c7, c8]
              · -- larger sizes
                by_cases b7 : size < 1180591620717411303424
                · -- branch: unit index 6
                  have c0 : ¬ size < 1 := by omega
                  have c1 : ¬ size < 1024 := by omega
                  have c2 : ¬ size < 1048576 := by omega
                  have c3 : ¬ size < 1073741824 := by omega
                  have c4 : ¬ size < 1099511627776 := by omega
                  have c5 : ¬ size < 1125899906842624 := by omega
                  have c6 : ¬ size < 1152921504606846976 := by omega
                  have c7 : size < 1180591620717411303424 := by omega
                  have c8 : size < 1208925819614629174706176 := by omega
                  have hidx : humanIndex size = 6 := by
                    norm_num [humanIndex, hr, List.foldl_cons, List.foldl_nil, c0, c1, c2, c3, c4, c5, c6, c7, c8]
                  refine ⟨?_, ?_, ?_⟩
                  · rw [hidx]; norm_num; omega
                  · rw [hidx]; norm_num; omega
                  · rw [hidx]
                    norm_num [human_size, size_map_eq, human_aux, size_names, c0, c1, c2, c3, c4, c5, c6, c7, c8]
                · -- larger sizes
                  by_cases b8 : size < 1208925819614629174706176
                  · -- branch: unit index 7
                    have c0 : ¬ size < 1 := by omega
                    have c1 : ¬ size < 1024 := by omega
                    have c2 : ¬ size < 1048576 := by omega
                    have c3 : ¬ size < 1073741824 := by omega
                    have c4 : ¬ size < 1099511627776 := by omega
                    have c5 : ¬ size < 1125899906842624 := by omega
                    have c6 : ¬ size < 1152921504606846976 := by omega
                    have c7 : ¬ size < 1180591620717411303424 := by omega
                    have c8 : size < 1208925819614629174706176 := by omega
                    have hidx : humanIndex size = 7 := by
                      norm_num [humanIndex, hr, List.foldl_cons, List.foldl_nil, c0, c1, c2, c3, c4, c5, c6, c7, c8]
                    refine ⟨?_, ?_, ?_⟩
                    · rw [hidx]; norm_num; omega
                    · rw [hidx]; norm_num; omega
                    · rw [hidx]
                      norm_num [human_size, size_map_eq, human_aux, size_names, c0, c1, c2, c3, c4, c5, c6, c7, c8]
                  · -- larger sizes
                    have c0 : ¬ size < 1 := by omega
                    have c1 : ¬ size < 1024 := by omega
                    have c2 : ¬ size < 1048576 := by omega
                    have c3 : ¬ size < 1073741824 := by omega
                    have c4 : ¬ size < 1099511627776 := by omega
                    have c5 : ¬ size < 1125899906842624 := by omega
                    have c6 : ¬ size < 1152921504606846976 := by omega
                    have c7 : ¬ size < 1180591620717411303424 := by omega
                    have c8 : ¬ size < 1208925819614629174706176 := by omega
                    have hidx : humanIndex size = 8 := by
                      norm_num [humanIndex, hr, List.foldl_cons, List.foldl_nil, c0, c1, c2, c3, c4, c5, c6, c7, c8]
                    refine ⟨?_, ?_, ?_⟩
                    · rw [hidx]; norm_num; omega
                    · rw [hidx]; norm_num; omega
                    · rw [hidx]
                      norm_num [human_size, size_map_eq, human_aux, size_names, c0, c1, c2, c3, c4, c5, c6, c7, c8]
  · intro size h90
    have h90' : 1237940039285380274899124224 ≤ size := by norm_num at h90; exact h90
    have c0 : ¬ size < 1 := by omega
    have c1 : ¬ size < 1024 := by omega
    have c2 : ¬ size < 1048576 := by omega
    have c3 : ¬ size < 1073741824 := by omega
    have c4 : ¬ size < 1099511627776 := by omega
    have c5 : ¬ size < 1125899906842624 := by omega
    have c6 : ¬ size < 1152921504606846976 := by omega
    have c7 : ¬ size < 1180591620717411303424 := by omega
    have c8 : ¬ size < 1208925819614629174706176 := by omega
    have hidx : humanIndex size = 8 := by
      norm_num [humanIndex, hr, List.foldl_cons, List.foldl_nil, c0, c1, c2, c3, c4, c5, c6, c7, c8]
    refine ⟨hidx, ?_⟩
    norm_num [human_size, size_map_eq, human_aux, size_names, c0, c1, c2, c3, c4, c5, c6, c7, c8]

/-- Witness for C8: the amended theorem at `size = 2048`, which selects
`KiB` with a scaled value below 1024. -/
theorem human_size_spec_witness :
    2 ^ (10 * humanIndex 2048) ≤ 2048 ∧ 2048 < 2 ^ (10 * (humanIndex 2048 + 1)) ∧
    human_size 2048 =
      fmt4g 2048 (2 ^ (10 * humanIndex 2048)) ++ " " ++
        size_names.getD (humanIndex 2048) "" :=
  human_size_spec.2.2.1 2048 (by decide) (by decide)

/-- Counterexample for C8 as stated: at `size = 1024 ^ 9 = 2 ^ 90` the
formatted value is `"1024 YiB"` — the scaled value 1024 is NOT strictly
below 1024, and no unit among B..YiB brings it below 1024. -/
theorem human_size_overflow_cex :
    human_size (2 ^ 90) = "1024 YiB" ∧ 2 ^ 90 / 2 ^ 80 = 1024 ∧
    ¬ ((1024 : Nat) < 1024) ∧ ¬ (2 ^ 90 < 2 ^ (10 * (8 + 1))) := by decide
